import Mathlib

/-!
Verification of the JSON schema-inference / path-flattening core of the
JsonSchemaExporter repository.

The repository's core lives in `utils/schema.ts` (the `SchemaNode` /
`buildSchemaTree` / `mergeSchemaTrees` / `getAllLeafPaths` / `flattenTour` /
`getValueByPath` variant) and `utils/breadcrumb.ts` (`matchBreadcrumb` /
`checkMatch`), plus the distributed-sampling logic of `App.tsx`.

We embed JSON values as an inductive type.  JavaScript `undefined` is
represented by `Option` (`none` = undefined) where it can occur, and a thrown
`TypeError` is represented by an explicit `thrown` result / `none` record,
because the resolver variant under verification reads `current[key]` before
its null/undefined guard and so can actually throw.

Modelling notes (JavaScript semantics made explicit):
* numbers are embedded as integers (`Int`); no claim under verification
  depends on float formatting or rounding;
* object property lookup assumes JSON-parsed objects (unique keys, insertion
  order preserved); property access on an array is modelled as element access
  for numeric keys and `undefined` otherwise (exotic own properties such as
  `length` are not modelled; no claim depends on them);
* property access on primitive values (autoboxing) yields `undefined`.
-/

inductive Json where
  | null : Json
  | bool (b : Bool) : Json
  | num (n : Int) : Json
  | str (s : String) : Json
  | arr (elems : List Json) : Json
  | obj (fields : List (String × Json)) : Json
deriving Repr

mutual
def Json.decEq : (a b : Json) → Decidable (a = b)
  | .null, .null => isTrue rfl
  | .bool a, .bool b =>
    match Bool.decEq a b with
    | isTrue h => isTrue (h ▸ rfl)
    | isFalse h => isFalse fun hh => h (Json.bool.inj hh)
  | .num a, .num b =>
    match Int.decEq a b with
    | isTrue h => isTrue (h ▸ rfl)
    | isFalse h => isFalse fun hh => h (Json.num.inj hh)
  | .str a, .str b =>
    match String.decEq a b with
    | isTrue h => isTrue (h ▸ rfl)
    | isFalse h => isFalse fun hh => h (Json.str.inj hh)
  | .arr a, .arr b =>
    match Json.decEqList a b with
    | isTrue h => isTrue (h ▸ rfl)
    | isFalse h => isFalse fun hh => h (Json.arr.inj hh)
  | .obj a, .obj b =>
    match Json.decEqFields a b with
    | isTrue h => isTrue (h ▸ rfl)
    | isFalse h => isFalse fun hh => h (Json.obj.inj hh)
  | .null, .bool _ | .null, .num _ | .null, .str _ | .null, .arr _ | .null, .obj _
  | .bool _, .null | .bool _, .num _ | .bool _, .str _ | .bool _, .arr _ | .bool _, .obj _
  | .num _, .null | .num _, .bool _ | .num _, .str _ | .num _, .arr _ | .num _, .obj _
  | .str _, .null | .str _, .bool _ | .str _, .num _ | .str _, .arr _ | .str _, .obj _
  | .arr _, .null | .arr _, .bool _ | .arr _, .num _ | .arr _, .str _ | .arr _, .obj _
  | .obj _, .null | .obj _, .bool _ | .obj _, .num _ | .obj _, .str _ | .obj _, .arr _ =>
    isFalse fun h => nomatch h

def Json.decEqList : (a b : List Json) → Decidable (a = b)
  | [], [] => isTrue rfl
  | [], _ :: _ => isFalse fun h => nomatch h
  | _ :: _, [] => isFalse fun h => nomatch h
  | x :: xs, y :: ys =>
    match Json.decEq x y, Json.decEqList xs ys with
    | isTrue h1, isTrue h2 => isTrue (h1 ▸ h2 ▸ rfl)
    | isFalse h1, _ => isFalse fun hh => h1 (List.cons.inj hh).1
    | _, isFalse h2 => isFalse fun hh => h2 (List.cons.inj hh).2

def Json.decEqFields : (a b : List (String × Json)) → Decidable (a = b)
  | [], [] => isTrue rfl
  | [], _ :: _ => isFalse fun h => nomatch h
  | _ :: _, [] => isFalse fun h => nomatch h
  | (k1, v1) :: xs, (k2, v2) :: ys =>
    match String.decEq k1 k2, Json.decEq v1 v2, Json.decEqFields xs ys with
    | isTrue h1, isTrue h2, isTrue h3 => isTrue (h1 ▸ h2 ▸ h3 ▸ rfl)
    | isFalse h1, _, _ => isFalse fun hh => h1 (congrArg Prod.fst (List.cons.inj hh).1)
    | _, isFalse h2, _ => isFalse fun hh => h2 (congrArg Prod.snd (List.cons.inj hh).1)
    | _, _, isFalse h3 => isFalse fun hh => h3 (List.cons.inj hh).2
end

instance : DecidableEq Json := Json.decEq

/-!
JavaScript string primitives used by the core, re-implemented as structural
definitions over the character list of a `String` so that every definition
evaluates inside the kernel:
* `jsSplitOnChar c s` is `s.split(c)` for a single-character separator;
* `jsEndsWith s suffix` is `s.endsWith(suffix)`;
* `jsDropRight s n` is `s.slice(0, -n)`;
* `jsIncludes s sub` is `s.includes(sub)`;
* `jsToNat s` parses a canonical decimal numeral (used to model JS
  numeric property access on arrays).
-/

def jsSplitOnCharAux (c : Char) : List Char → List (List Char)
  | [] => [[]]
  | ch :: rest =>
    match jsSplitOnCharAux c rest with
    | [] => [[]]
    | g :: gs => if ch = c then [] :: g :: gs else (ch :: g) :: gs

def jsSplitOnChar (c : Char) (s : String) : List String :=
  (jsSplitOnCharAux c s.data).map fun cs => ⟨cs⟩

def jsEndsWith (s suffix : String) : Bool :=
  s.data.drop (s.data.length - suffix.data.length) = suffix.data

def jsDropRight (s : String) (n : Nat) : String :=
  ⟨s.data.take (s.data.length - n)⟩

def listBeginsWith : List Char → List Char → Bool
  | [], _ => true
  | _ :: _, [] => false
  | p :: ps, c :: cs => p = c && listBeginsWith ps cs

def listContainsSub (needle : List Char) : List Char → Bool
  | [] => needle.isEmpty
  | c :: cs => listBeginsWith needle (c :: cs) || listContainsSub needle cs

def jsIncludes (s sub : String) : Bool :=
  listContainsSub sub.data s.data

def jsToNatAux : List Char → Option Nat → Option Nat
  | [], acc => acc
  | c :: cs, acc =>
    if c.isDigit then
      jsToNatAux cs (some ((acc.getD 0) * 10 + (c.toNat - '0'.toNat)))
    else none

def jsToNat (s : String) : Option Nat :=
  jsToNatAux s.data none

/-- JavaScript truthiness of a JSON value (`!v` is `!truthy v`).
Arrays and objects are always truthy; `null`, `false`, `0` and `""` are falsy. -/
def Json.truthy : Json → Bool
  | .null => false
  | .bool b => b
  | .num n => n != 0
  | .str s => s != ""
  | .arr _ => true
  | .obj _ => true

/-- JavaScript property read `v[k]` for a defined, non-null `v`:
field lookup on objects, numeric element access on arrays, `undefined`
(i.e. `none`) on primitives (autoboxing exposes no own properties we model). -/
def Json.getProp : Json → String → Option Json
  | .obj fs, k => lookupField fs k
  | .arr xs, k =>
    match jsToNat k with
    | some i => xs.get? i
    | none => none
  | _, _ => none
where
  lookupField : List (String × Json) → String → Option Json
    | [], _ => none
    | (k', v) :: rest, k => if k' = k then some v else lookupField rest k

/-- Outcome of a JavaScript expression that may evaluate to `undefined` or
throw a `TypeError`. -/
inductive JsResult where
  | thrown : JsResult
  | undefinedVal : JsResult
  | val (v : Json) : JsResult
deriving DecidableEq, Repr

/--
The segment-walking loop of `getValueByPath` (utils/schema.ts, the variant
whose array branch precedes the null/undefined guard):

```js
for (let i = 0; i < parts.length; i++) {
    const part = parts[i];
    if (part.endsWith('[]')) {
        const key = part.slice(0, -2);
        const array = key ? current[key] : current;
        if (!Array.isArray(array)) return undefined;
        const restPath = parts.slice(i + 1).join('.');
        if (!restPath) return array;
        return array.flatMap(item => {
            const val = getValueByPath(item, restPath);
            return val === undefined ? [] : [val];
        });
    }
    if (current === null || current === undefined || typeof current !== 'object') return undefined;
    current = current[part];
}
return current;
```

`current` is `none` when the JS value is `undefined`.  Reading
`current[key]` while `current` is `null`/`undefined` throws — modelled by
`.thrown`.  The recursive call re-splits `parts.slice(i+1).join('.')`;
since segments produced by `split('.')` are dot-free and the joined string
is checked non-empty, that re-split yields exactly the remaining segment
list, so the embedding recurses on the segment list directly.  A thrown
element aborts `flatMap`, so one `.thrown` element result makes the whole
resolution `.thrown`.
-/
def resolveLoop : Option Json → List String → JsResult
  | current, [] =>
    match current with
    | some v => .val v
    | none => .undefinedVal
  | current, part :: rest =>
    if jsEndsWith part "[]" then
      let key := jsDropRight part 2
      let arrayRead : JsResult :=
        if key = "" then
          match current with
          | some v => .val v
          | none => .undefinedVal
        else
          match current with
          | none => .thrown
          | some .null => .thrown
          | some c =>
            match c.getProp key with
            | some v => .val v
            | none => .undefinedVal
      match arrayRead with
      | .thrown => .thrown
      | .undefinedVal => .undefinedVal
      | .val v =>
        match v with
        | .arr xs =>
          if String.intercalate "." rest = "" then .val (.arr xs)
          else
            let results := xs.map fun item =>
              if item.truthy then resolveLoop (some item) rest else JsResult.undefinedVal
            if results.any fun r => match r with | .thrown => true | _ => false then .thrown
            else
              .val (.arr (results.filterMap fun r =>
                match r with
                | .val w => some w
                | _ => none))
        | _ => .undefinedVal
    else
      match current with
      | some (Json.obj fs) => resolveLoop ((Json.obj fs).getProp part) rest
      | some (Json.arr xs) => resolveLoop ((Json.arr xs).getProp part) rest
      | _ => .undefinedVal

/-- `getValueByPath(obj, path)` from utils/schema.ts: the initial
`if (!obj) return undefined` guard followed by the segment loop over
`path.split('.')`. -/
def getValueByPath (obj : Json) (path : String) : JsResult :=
  if obj.truthy then resolveLoop (some obj) (jsSplitOnChar '.' path) else .undefinedVal

mutual
/-- `value.flat(Infinity)` on the element list of a JS array: recursively
splices nested arrays, leaving all non-array elements in order. -/
def flatInfList : List Json → List Json
  | [] => []
  | x :: xs => flatInfOne x ++ flatInfList xs

def flatInfOne : Json → List Json
  | .arr ys => flatInfList ys
  | v => [v]
end

mutual
/-- JavaScript `String(v)` for a JSON value: identity on strings, decimal
numerals, `"true"`/`"false"`/`"null"`, arrays join their elements with `","`
(null elements becoming empty), objects print `"[object Object]"`. -/
def jsString : Json → String
  | .null => "null"
  | .bool true => "true"
  | .bool false => "false"
  | .num n => toString n
  | .str s => s
  | .arr xs => String.intercalate "," (jsJoinParts xs)
  | .obj _ => "[object Object]"

/-- Element conversions of JavaScript `Array.prototype.join`: `null` and
`undefined` elements become the empty string, others use `String(v)`.
(The embedded values contain no `undefined` elements.) -/
def jsJoinParts : List Json → List String
  | [] => []
  | Json.null :: xs => "" :: jsJoinParts xs
  | x :: xs => jsString x :: jsJoinParts xs
end

def jsonEscapeChar (c : Char) : String :=
  if c = '"' then "\\\""
  else if c = '\\' then "\\\\"
  else if c = '\n' then "\\n"
  else if c = '\t' then "\\t"
  else if c = '\x0d' then "\\r"
  else String.singleton c

def jsonEscape (s : String) : String :=
  String.join (s.data.map jsonEscapeChar)

mutual
/-- `JSON.stringify(v)` (no spacing), restricted to the escapes exercised by
the embedded values. -/
def jsonStringify : Json → String
  | .null => "null"
  | .bool true => "true"
  | .bool false => "false"
  | .num n => toString n
  | .str s => "\"" ++ jsonEscape s ++ "\""
  | .arr xs => "[" ++ String.intercalate "," (jsonStringifyList xs) ++ "]"
  | .obj fs => "\x7b" ++ String.intercalate "," (jsonStringifyFields fs) ++ "\x7d"

def jsonStringifyList : List Json → List String
  | [] => []
  | x :: xs => jsonStringify x :: jsonStringifyList xs

def jsonStringifyFields : List (String × Json) → List String
  | [] => []
  | (k, v) :: fs => ("\"" ++ jsonEscape k ++ "\":" ++ jsonStringify v) :: jsonStringifyFields fs
end

/-- JS object property assignment `result[path] = v` on a record built by
insertion: overwrites in place if the key exists, else appends. -/
def setEntry : List (String × Json) → String → Json → List (String × Json)
  | [], k, v => [(k, v)]
  | (k', v') :: rest, k, v =>
    if k' = k then (k, v) :: rest else (k', v') :: setEntry rest k v

/-- The per-path cell computed by `flattenTour` (utils/schema.ts) once
`value = getValueByPath(data, path)` is known not to have thrown.
`value : Option Json` is `none` when the resolution returned `undefined`.

```js
if (path.includes('[]')) {
    if (!Array.isArray(value)) { result[path] = value ?? ''; return; }
    const flatValues = value.flat(Infinity).filter(v => v !== null && v !== undefined);
    switch (rule) {
        case 'count': result[path] = flatValues.length; break;
        case 'first': result[path] = flatValues[0] ?? ''; break;
        case 'last': result[path] = flatValues[flatValues.length - 1] ?? ''; break;
        case 'json': result[path] = JSON.stringify(flatValues); break;
        case 'join': default: result[path] = flatValues.join(separator); break;
    }
} else {
    result[path] = (typeof value === 'object' && value !== null) ? JSON.stringify(value) : (value ?? '');
}
```

The aggregation rule is carried as a raw string so that the `default:`
fall-through to `join` is part of the model. -/
def flattenCell (path rule separator : String) (value : Option Json) : Json :=
  if jsIncludes path "[]" then
    match value with
    | some (Json.arr xs) =>
      let flatValues := (flatInfList xs).filter fun v => v ≠ Json.null
      if rule = "count" then Json.num flatValues.length
      else if rule = "first" then (flatValues.head?).getD (Json.str "")
      else if rule = "last" then (flatValues.getLast?).getD (Json.str "")
      else if rule = "json" then Json.str (jsonStringify (Json.arr flatValues))
      else Json.str (String.intercalate separator (jsJoinParts flatValues))
    | some Json.null => Json.str ""
    | some v => v
    | none => Json.str ""
  else
    match value with
    | some (Json.obj fs) => Json.str (jsonStringify (Json.obj fs))
    | some (Json.arr xs) => Json.str (jsonStringify (Json.arr xs))
    | some Json.null => Json.str ""
    | some v => v
    | none => Json.str ""

/-- The `selectedPaths.forEach` loop of `flattenTour`.  A thrown resolution
aborts the whole call (result `none`). -/
def flattenGo (data : Json) (rule separator : String) :
    List String → List (String × Json) → Option (List (String × Json))
  | [], acc => some acc
  | p :: ps, acc =>
    match getValueByPath data p with
    | .thrown => none
    | .undefinedVal => flattenGo data rule separator ps (setEntry acc p (flattenCell p rule separator none))
    | .val v => flattenGo data rule separator ps (setEntry acc p (flattenCell p rule separator (some v)))

/-- `flattenTour(data, selectedPaths, rule, separator)` from utils/schema.ts.
Returns `none` when the JS function would throw (see `resolveLoop`). -/
def flattenTour (data : Json) (selectedPaths : List String) (rule separator : String) :
    Option (List (String × Json)) :=
  flattenGo data rule separator selectedPaths []

/-- The `type` field of a `SchemaNode` (`'scalar' | 'array' | 'object'`). -/
inductive NType where
  | scalar : NType
  | array : NType
  | object : NType
deriving DecidableEq, Repr

/-- `SchemaNode` from utils/schema.ts:
`{ name: string; path: string; type: ...; children?: SchemaNode[] }`.
`children = none` models an absent (`undefined`) field; `some []` models a
present but empty array (which is truthy in JS). -/
inductive SchemaNode where
  | mk (name : String) (path : String) (ty : NType) (children : Option (List SchemaNode)) : SchemaNode
deriving Repr

def SchemaNode.name : SchemaNode → String
  | .mk n _ _ _ => n

def SchemaNode.path : SchemaNode → String
  | .mk _ p _ _ => p

def SchemaNode.ty : SchemaNode → NType
  | .mk _ _ t _ => t

def SchemaNode.children : SchemaNode → Option (List SchemaNode)
  | .mk _ _ _ c => c

/-- `node.children || []`. -/
def childrenD (n : SchemaNode) : List SchemaNode :=
  n.children.getD []

mutual
def SchemaNode.decEq : (a b : SchemaNode) → Decidable (a = b)
  | .mk n1 p1 t1 c1, .mk n2 p2 t2 c2 =>
    match String.decEq n1 n2, String.decEq p1 p2, instDecidableEqNType t1 t2,
        SchemaNode.decEqOpt c1 c2 with
    | isTrue h1, isTrue h2, isTrue h3, isTrue h4 => isTrue (h1 ▸ h2 ▸ h3 ▸ h4 ▸ rfl)
    | isFalse h1, _, _, _ => isFalse fun hh => h1 (congrArg SchemaNode.name hh)
    | _, isFalse h2, _, _ => isFalse fun hh => h2 (congrArg SchemaNode.path hh)
    | _, _, isFalse h3, _ => isFalse fun hh => h3 (congrArg SchemaNode.ty hh)
    | _, _, _, isFalse h4 => isFalse fun hh => h4 (congrArg SchemaNode.children hh)

def SchemaNode.decEqOpt : (a b : Option (List SchemaNode)) → Decidable (a = b)
  | none, none => isTrue rfl
  | none, some _ => isFalse fun h => nomatch h
  | some _, none => isFalse fun h => nomatch h
  | some xs, some ys =>
    match SchemaNode.decEqList xs ys with
    | isTrue h => isTrue (h ▸ rfl)
    | isFalse h => isFalse fun hh => h (Option.some.inj hh)

def SchemaNode.decEqList : (a b : List SchemaNode) → Decidable (a = b)
  | [], [] => isTrue rfl
  | [], _ :: _ => isFalse fun h => nomatch h
  | _ :: _, [] => isFalse fun h => nomatch h
  | x :: xs, y :: ys =>
    match SchemaNode.decEq x y, SchemaNode.decEqList xs ys with
    | isTrue h1, isTrue h2 => isTrue (h1 ▸ h2 ▸ rfl)
    | isFalse h1, _ => isFalse fun hh => h1 (List.cons.inj hh).1
    | _, isFalse h2 => isFalse fun hh => h2 (List.cons.inj hh).2
end

instance : DecidableEq SchemaNode := SchemaNode.decEq

mutual
/-- `mergeSchemaTrees(base, extra)` from utils/schema.ts:

```js
const node = { ...base };
if (extra.type === 'object' || extra.type === 'array') {
    const baseChildren = base.children || [];
    const extraChildren = extra.children || [];
    const mergedChildren = [...baseChildren];
    extraChildren.forEach(extraChild => {
        const existingIdx = mergedChildren.findIndex(c => c.name === extraChild.name);
        if (existingIdx !== -1) {
            mergedChildren[existingIdx] = mergeSchemaTrees(mergedChildren[existingIdx], extraChild);
        } else {
            mergedChildren.push(extraChild);
        }
    });
    node.children = mergedChildren.length > 0 ? mergedChildren : undefined;
}
return node;
```
-/
def mergeSchemaTrees (base extra : SchemaNode) : SchemaNode :=
  match extra with
  | .mk _ _ ety ech =>
    match ety with
    | .scalar => base
    | _ =>
      let merged := mergeChildren (childrenD base)
        (match ech with
         | some ecs => ecs
         | none => [])
      .mk base.name base.path base.ty (if merged.length > 0 then some merged else none)
termination_by (sizeOf extra, 0, 0)
decreasing_by
  rename_i o t
  cases o with
  | none => simp_wf; apply Prod.Lex.left; simp
  | some l => simp_wf; apply Prod.Lex.left; omega

/-- The `extraChildren.forEach` loop of `mergeSchemaTrees`. -/
def mergeChildren (acc : List SchemaNode) (es : List SchemaNode) : List SchemaNode :=
  match es with
  | [] => acc
  | e :: es' => mergeChildren (insertMergeNode acc e) es'
termination_by (sizeOf es, 2, 0)

/-- One `forEach` step: merge `e` into the first same-named entry of `acc`,
or push it at the end. -/
def insertMergeNode (acc : List SchemaNode) (e : SchemaNode) : List SchemaNode :=
  match acc with
  | [] => [e]
  | c :: cs =>
    if c.name = e.name then mergeSchemaTrees c e :: cs else c :: insertMergeNode cs e
termination_by (sizeOf e, 1, sizeOf acc)
end

mutual
/-- `buildSchemaTree(obj, parentPath, name)` from utils/schema.ts (the
variant that builds a schema for every array item and merges the item
trees):

```js
const type = Array.isArray(obj) ? 'array' : (obj && typeof obj === 'object') ? 'object' : 'scalar';
let path = parentPath;
if (name !== 'root') { path = parentPath ? `${parentPath}.${name}` : name; }
const node = { name, path, type };
if (type === 'array') {
    const arrayPath = `${path}[]`;
    node.path = arrayPath;
    if (obj.length > 0) {
        let mergedItemTree = null;
        for (const item of obj) {
            const itemTree = buildSchemaTree(item, arrayPath, 'item');
            mergedItemTree = mergedItemTree ? mergeSchemaTrees(mergedItemTree, itemTree) : itemTree;
        }
        if (mergedItemTree && mergedItemTree.children) { node.children = mergedItemTree.children; }
    }
} else if (type === 'object' && obj !== null) {
    node.children = Object.entries(obj).map(([key, value]) =>
        buildSchemaTree(value, name === 'root' ? '' : path, key));
}
return node;
```
-/
def buildSchemaTree (obj : Json) (parentPath : String) (name : String) : SchemaNode :=
  let path := if name = "root" then parentPath
              else if parentPath = "" then name else parentPath ++ "." ++ name
  match obj with
  | .arr xs =>
    let arrayPath := path ++ "[]"
    match xs with
    | [] => .mk name arrayPath .array none
    | x :: rest =>
      let merged := buildItemsFold (buildSchemaTree x arrayPath "item") rest arrayPath
      match merged.children with
      | some cs => .mk name arrayPath .array (some cs)
      | none => .mk name arrayPath .array none
  | .obj fs =>
    .mk name path .object (some (buildChildrenList fs (if name = "root" then "" else path)))
  | _ => .mk name path .scalar none

/-- The `for (const item of obj)` merge fold over the remaining array items. -/
def buildItemsFold (acc : SchemaNode) (xs : List Json) (arrayPath : String) : SchemaNode :=
  match xs with
  | [] => acc
  | x :: rest => buildItemsFold (mergeSchemaTrees acc (buildSchemaTree x arrayPath "item")) rest arrayPath

/-- `Object.entries(obj).map(([key, value]) => buildSchemaTree(value, pp, key))`. -/
def buildChildrenList (fs : List (String × Json)) (pp : String) : List SchemaNode :=
  match fs with
  | [] => []
  | (k, v) :: rest => buildSchemaTree v pp k :: buildChildrenList rest pp
end

mutual
/-- `getAllLeafPaths(node)` from utils/schema.ts: the path of every
`scalar`-typed node, pre-order; a scalar node contributes its own path and
is not descended into. -/
def getAllLeafPaths : SchemaNode → List String
  | .mk _ p ty ch =>
    match ty with
    | .scalar => [p]
    | _ =>
      match ch with
      | some cs => leafPathsList cs
      | none => []

def leafPathsList : List SchemaNode → List String
  | [] => []
  | c :: cs => getAllLeafPaths c ++ leafPathsList cs
end

/-- `String(node.code)` where `node.code` may be `undefined`:
`String(undefined) = "undefined"`. -/
def jsStringOfProp : Option Json → String
  | none => "undefined"
  | some v => jsString v

/-- `checkMatch(dataChain, selectedCodes)` from utils/breadcrumb.ts:

```js
for (let i = 0; i < selectedCodes.length; i++) {
    const codeToMatch = selectedCodes[i];
    if (!codeToMatch) continue;
    const node = dataChain[i];
    if (!node) return false;
    if (String(node.code) !== codeToMatch) return false;
}
return true;
```

The recursion walks both lists in step; `dataChain[i]` past the end is
`undefined`, which is falsy exactly like a falsy in-range element. -/
def checkMatch (dataChain : List Json) (selectedCodes : List String) : Bool :=
  match selectedCodes with
  | [] => true
  | code :: codes =>
    if code = "" then checkMatch dataChain.tail codes
    else
      match dataChain with
      | [] => false
      | node :: rest =>
        if node.truthy then
          if jsStringOfProp (node.getProp "code") = code then checkMatch rest codes
          else false
        else false

/-- `content?.queries?.getCommBreadcrumb` (optional chaining: `undefined`
propagates, property access on primitives yields `undefined`). -/
def breadcrumbQueries (content : Json) : Option Json :=
  (content.getProp "queries").bind fun q => q.getProp "getCommBreadcrumb"

/-- One wrapper entry `b` of the specialized branch: `b?.data` if it is an
array, else no chain. -/
def wrapperChain (b : Json) : Option (List Json) :=
  match b with
  | .null => none
  | b' =>
    match b'.getProp "data" with
    | some (.arr data) => some data
    | _ => none

/-- `matchBreadcrumb(content, sourcePath, selectedCodes)` from
utils/breadcrumb.ts:

```js
if (selectedCodes.length === 0 || selectedCodes.every(c => !c)) return true;
if (sourcePath.includes('getCommBreadcrumb')) {
    const breadcrumbs = content?.queries?.getCommBreadcrumb;
    if (!Array.isArray(breadcrumbs)) return false;
    return breadcrumbs.some(b => {
        const data = b?.data;
        if (!Array.isArray(data)) return false;
        return checkMatch(data, selectedCodes);
    });
}
const targetData = getValueByPath(content, sourcePath);
if (Array.isArray(targetData)) return checkMatch(targetData, selectedCodes);
return false;
```

The generic branch calls the resolver, which can throw (see `resolveLoop`);
a thrown resolution is modelled as result `none`. -/
def matchBreadcrumb (content : Json) (sourcePath : String) (selectedCodes : List String) :
    Option Bool :=
  if selectedCodes.all (fun c => c = "") then some true
  else if jsIncludes sourcePath "getCommBreadcrumb" then
    match breadcrumbQueries content with
    | some (.arr bs) =>
      some (bs.any fun b =>
        match wrapperChain b with
        | some data => checkMatch data selectedCodes
        | none => false)
    | _ => some false
  else
    match getValueByPath content sourcePath with
    | .thrown => none
    | .val (.arr td) => some (checkMatch td selectedCodes)
    | _ => some false

/-- The `{code,name}`-chains `matchBreadcrumb` inspects for a given content
and source path: the `data` arrays of the query-wrapper entries in the
specialized branch, or the directly resolved array in the generic branch
(empty if the resolution does not produce an array or throws). -/
def breadcrumbChains (content : Json) (sourcePath : String) : List (List Json) :=
  if jsIncludes sourcePath "getCommBreadcrumb" then
    match breadcrumbQueries content with
    | some (.arr bs) => bs.filterMap wrapperChain
    | _ => []
  else
    match getValueByPath content sourcePath with
    | .val (.arr td) => [td]
    | _ => []

/-- The distributed-sampling index selection of the `schemaTree` memo in
App.tsx, with exact integer arithmetic in place of JS float arithmetic
(`Math.floor(i * (matches.length / MAX_SCHEMA_SAMPLES))` becomes
`i * n / maxSchemaSamples`):

```js
const MAX_SCHEMA_SAMPLES = 1000;
let samples = matches;
if (matches.length > MAX_SCHEMA_SAMPLES) {
    samples = [];
    const step = matches.length / MAX_SCHEMA_SAMPLES;
    for (let i = 0; i < MAX_SCHEMA_SAMPLES; i++) {
        const index = Math.floor(i * step);
        if (matches[index]) { samples.push(matches[index]); }
    }
}
```
-/
def maxSchemaSamples : Nat := 1000

def sampleIndices (n : Nat) : List Nat :=
  (List.range maxSchemaSamples).map fun i => i * n / maxSchemaSamples

/-- `Array.isArray(v)`. -/
def Json.isArr : Json → Bool
  | .arr _ => true
  | _ => false

/-- Plain-object test (`typeof v === "object"`, not an array, not null). -/
def Json.isObj : Json → Bool
  | .obj _ => true
  | _ => false

/-- All node names in a list are pairwise distinct. -/
def namesDistinct : List SchemaNode → Bool
  | [] => true
  | c :: cs => (cs.all fun c2 => !(c2.name == c.name)) && namesDistinct cs

mutual
/-- Structural compatibility of two schema trees for merging: name-aligned
positions agree on scalar-versus-structured, scalar positions carry the same
path string, and the extra side's children have pairwise distinct names.
This is the hypothesis under which `mergeSchemaTrees` computes exactly the
union of the two leaf-path sets. -/
def mergeOk (a b : SchemaNode) : Bool :=
  match b with
  | .mk _ _ bty bch =>
    match a.ty, bty with
    | .scalar, .scalar => a.path == b.path
    | .scalar, _ => false
    | _, .scalar => false
    | _, _ =>
      match bch with
      | some bcs => namesDistinct bcs && mergeOkLists (childrenD a) bcs
      | none => mergeOkLists (childrenD a) []
termination_by (sizeOf b, 0, 0)
decreasing_by
  all_goals simp_wf
  all_goals apply Prod.Lex.left
  all_goals omega

def mergeOkLists (as bs : List SchemaNode) : Bool :=
  match as with
  | [] => true
  | a :: as' => mergeOkOne a bs && mergeOkLists as' bs
termination_by (sizeOf bs, 2, sizeOf as)

def mergeOkOne (a : SchemaNode) (bs : List SchemaNode) : Bool :=
  match bs with
  | [] => true
  | b :: bs' => (if a.name = b.name then mergeOk a b else true) && mergeOkOne a bs'
termination_by (sizeOf bs, 1, 0)
end

/-- The claim's positional breadcrumb condition on one `{code,name}` chain:
every position with a non-empty selected code has a (truthy) node there
whose stringified `code` equals the selected code; positions with an empty
selected code are skipped. -/
def ChainSpec (chain : List Json) (codes : List String) : Prop :=
  ∀ i, i < codes.length → codes.getD i "" ≠ "" →
    (chain.getD i Json.null).truthy = true ∧
    jsStringOfProp ((chain.getD i Json.null).getProp "code") = codes.getD i ""

/-! Concrete documents used by the counterexample, failing-input and witness
theorems below. -/

def tagsDoc : Json := .obj [("Tags", .arr [.str "x", .str "y", Json.null, .str "z"])]

def crashDoc : Json := .obj [("a", Json.null)]

def itemLeafDoc : Json := .obj [("a", .arr [.obj [("b", .arr [.obj [("c", .num 1)]])]])]

def nestedFirstDoc : Json := .obj [("a", .arr [.obj [("b", .obj [("x", .num 1)])]])]

def mxA : Json := .obj [("x", .num 1)]

def mxB : Json := .obj [("x", .obj [("y", .num 2)])]

def mxEmpty : Json := .obj []

def c3wA : Json := .obj [("a", .num 1)]

def c3wB : Json := .obj [("b", .num 2)]

def c3wC : Json := .obj [("a", .num 3), ("c", .num 4)]

def bcDoc : Json :=
  .obj [("queries", .obj [("getCommBreadcrumb",
    .arr [.obj [("data", .arr
      [.obj [("code", .str "L1"), ("name", .str "Top")],
       .obj [("code", .str "L2"), ("name", .str "Mid")],
       .obj [("code", .str "L3"), ("name", .str "Leaf")]])]])])]

/-! ## Claim theorems -/

/-- Claim C1.  The claim asserts that `getValueByPath` and `flattenTour`
never raise for any JSON document and any path string.  The code violates
this: on the document `("a": null)` with path `"a.b[]"`, the loop descends
to `null`, and the array-segment branch then reads `current["b"]` of `null`
before the null/undefined guard, throwing a TypeError; the flattening of
that selected path throws as well.  (The sibling resolver variant in the
repository moves the guard first with a "Robustness" comment, confirming
the claim describes the intent.) -/
theorem c1_resolution_throws :
    getValueByPath crashDoc "a.b[]" = JsResult.thrown ∧
    flattenTour crashDoc ["a.b[]"] "join" "; " = none := by
  decide

/-- Claim C5.  Array-rule outputs on `(Tags: ["x","y",null,"z"])` with
`selectedPaths = ["Tags[]"]`: `join` gives `"x; y; z"`, `count` gives the
number 3, `first` gives `"x"`, `last` gives `"z"`, `json` gives
`"[\"x\",\"y\",\"z\"]"`. -/
theorem c5_array_rule_outputs :
    flattenTour tagsDoc ["Tags[]"] "join" "; " = some [("Tags[]", Json.str "x; y; z")] ∧
    flattenTour tagsDoc ["Tags[]"] "count" "; " = some [("Tags[]", Json.num 3)] ∧
    flattenTour tagsDoc ["Tags[]"] "first" "; " = some [("Tags[]", Json.str "x")] ∧
    flattenTour tagsDoc ["Tags[]"] "last" "; " = some [("Tags[]", Json.str "z")] ∧
    flattenTour tagsDoc ["Tags[]"] "json" "; " = some [("Tags[]", Json.str "[\"x\",\"y\",\"z\"]")] := by
  decide

/-- Claim C2.  The claim asserts every leaf path of
`getAllLeafPaths (buildSchemaTree document)` resolves on the same document
to a defined, non-object value.  The code violates this: `buildSchemaTree`
names array items with the sentinel `"item"`, so on
`("a": [("b": [("c": 1)])])` the single collected leaf path is
`"a[].item.b[].item.c"`, and resolving that path on the same document
throws a TypeError (the element resolution descends to `undefined` at key
`"item"` and then reads `undefined["b"]`). -/
theorem c2_leaf_path_crash :
    getAllLeafPaths (buildSchemaTree itemLeafDoc "" "root") = ["a[].item.b[].item.c"] ∧
    getValueByPath itemLeafDoc "a[].item.b[].item.c" = JsResult.thrown := by
  constructor
  · simp [itemLeafDoc, buildSchemaTree, buildItemsFold, buildChildrenList, getAllLeafPaths,
      leafPathsList, SchemaNode.children, SchemaNode.name, SchemaNode.path, SchemaNode.ty]
  · decide

/-- Claim C3, counterexample.  The claim asserts the merged tree of three
inferred documents contains the union of the individual leaf-path sets in
any merge order.  With A = `("x": 1)`, B = `("x": ("y": 2))`, C = `()`:
merging A-first keeps only `"x"` (the base node stays scalar, so
`getAllLeafPaths` never descends into the acquired children and the
observed leaf `"x.y"` of B is dropped); merging B-first keeps only
`"x.y"`.  So a field observed in an input is dropped and the field set
depends on the merge order. -/
theorem c3_counterexample :
    getAllLeafPaths (mergeSchemaTrees
      (mergeSchemaTrees (buildSchemaTree mxA "" "root") (buildSchemaTree mxB "" "root"))
      (buildSchemaTree mxEmpty "" "root")) = ["x"] ∧
    getAllLeafPaths (buildSchemaTree mxB "" "root") = ["x.y"] ∧
    getAllLeafPaths (mergeSchemaTrees
      (mergeSchemaTrees (buildSchemaTree mxB "" "root") (buildSchemaTree mxA "" "root"))
      (buildSchemaTree mxEmpty "" "root")) = ["x.y"] := by
  refine ⟨?_, ?_, ?_⟩ <;>
    simp [mxA, mxB, mxEmpty, buildSchemaTree, buildItemsFold, buildChildrenList,
      getAllLeafPaths, leafPathsList, mergeSchemaTrees, mergeChildren, insertMergeNode,
      childrenD, SchemaNode.children, SchemaNode.name, SchemaNode.path, SchemaNode.ty]

/-- Claim C6, counterexample.  The claim asserts flattened record values are
never objects.  On document `("a": [("b": ("x": 1))])` with selected path
`"a[].b"` and rule `first`, the resolver returns the one-element sequence
holding the object `("x": 1)`; deep-flattening does not descend into
objects, so rule `first` stores that raw object in the record. -/
theorem c6_counterexample :
    flattenTour nestedFirstDoc ["a[].b"] "first" "; " =
      some [("a[].b", Json.obj [("x", Json.num 1)])] ∧
    (Json.obj [("x", Json.num 1)]).isObj = true := by
  decide

lemma flattenCell_unrecognized (p rule sep : String) (v : Option Json)
    (h1 : rule ≠ "count") (h2 : rule ≠ "first") (h3 : rule ≠ "last") (h4 : rule ≠ "json") :
    flattenCell p rule sep v = flattenCell p "join" sep v := by
  have j1 : ("join" : String) ≠ "count" := by decide
  have j2 : ("join" : String) ≠ "first" := by decide
  have j3 : ("join" : String) ≠ "last" := by decide
  have j4 : ("join" : String) ≠ "json" := by decide
  unfold flattenCell
  simp only [h1, h2, h3, h4, j1, j2, j3, j4, if_false, ite_false]

lemma flattenGo_unrecognized (data : Json) (rule sep : String)
    (h1 : rule ≠ "count") (h2 : rule ≠ "first") (h3 : rule ≠ "last") (h4 : rule ≠ "json") :
    ∀ (ps : List String) (acc : List (String × Json)),
      flattenGo data rule sep ps acc = flattenGo data "join" sep ps acc := by
  intro ps
  induction ps with
  | nil => intro acc; rfl
  | cons p ps ih =>
    intro acc
    unfold flattenGo
    cases getValueByPath data p with
    | thrown => rfl
    | undefinedVal =>
      simp only [flattenCell_unrecognized p rule sep none h1 h2 h3 h4]
      exact ih _
    | val v =>
      simp only [flattenCell_unrecognized p rule sep (some v) h1 h2 h3 h4]
      exact ih _

/-- Claim C8.  For any rule string that is not one of `count`, `first`,
`last`, `json` — in particular any unrecognized value — `flattenTour`
behaves identically to the `join` rule. -/
theorem c8_unrecognized_rule_joins (data : Json) (paths : List String) (rule sep : String)
    (h1 : rule ≠ "count") (h2 : rule ≠ "first") (h3 : rule ≠ "last") (h4 : rule ≠ "json") :
    flattenTour data paths rule sep = flattenTour data paths "join" sep := by
  unfold flattenTour
  exact flattenGo_unrecognized data rule sep h1 h2 h3 h4 paths []

/-- Witness for C8 at the concrete rule string `"banana"`. -/
theorem c8_unrecognized_rule_joins_witness :
    flattenTour tagsDoc ["Tags[]"] "banana" "; " = flattenTour tagsDoc ["Tags[]"] "join" "; " :=
  c8_unrecognized_rule_joins tagsDoc ["Tags[]"] "banana" "; "
    (by decide) (by decide) (by decide) (by decide)

lemma mergeSchemaTrees_scalar_extra (a : SchemaNode) (n p : String) (ch : Option (List SchemaNode)) :
    mergeSchemaTrees a (.mk n p NType.scalar ch) = a := by
  unfold mergeSchemaTrees
  rfl

lemma mergeSchemaTrees_struct_extra (a : SchemaNode) (n p : String) (t : NType)
    (ch : Option (List SchemaNode)) (ht : t ≠ NType.scalar) :
    mergeSchemaTrees a (.mk n p t ch) =
      .mk a.name a.path a.ty
        (if (mergeChildren (childrenD a) (ch.getD [])).length > 0
         then some (mergeChildren (childrenD a) (ch.getD []))
         else none) := by
  unfold mergeSchemaTrees
  cases t with
  | scalar => exact absurd rfl ht
  | array => cases ch <;> rfl
  | object => cases ch <;> rfl

lemma mergeSchemaTrees_frame (a b : SchemaNode) :
    (mergeSchemaTrees a b).name = a.name ∧ (mergeSchemaTrees a b).path = a.path ∧
      (mergeSchemaTrees a b).ty = a.ty := by
  cases b with
  | mk n p t ch =>
    cases t with
    | scalar => rw [mergeSchemaTrees_scalar_extra]; exact ⟨rfl, rfl, rfl⟩
    | array =>
      rw [mergeSchemaTrees_struct_extra a n p NType.array ch (by decide)]
      exact ⟨rfl, rfl, rfl⟩
    | object =>
      rw [mergeSchemaTrees_struct_extra a n p NType.object ch (by decide)]
      exact ⟨rfl, rfl, rfl⟩

lemma insertMergeNode_no_match (e : SchemaNode) :
    ∀ acc : List SchemaNode, (∀ c ∈ acc, c.name ≠ e.name) → insertMergeNode acc e = acc ++ [e] := by
  intro acc
  induction acc with
  | nil => intro _; simp [insertMergeNode]
  | cons c cs ih =>
    intro h
    unfold insertMergeNode
    rw [if_neg (h c (by simp))]
    rw [ih fun c' hc' => h c' (by simp [hc'])]
    simp

lemma mergeChildren_no_match :
    ∀ (cs acc : List SchemaNode), namesDistinct cs = true →
      (∀ c ∈ cs, ∀ a ∈ acc, a.name ≠ c.name) → mergeChildren acc cs = acc ++ cs := by
  intro cs
  induction cs with
  | nil => intro acc _ _; simp [mergeChildren]
  | cons c cs ih =>
    intro acc hd h
    unfold mergeChildren
    rw [insertMergeNode_no_match c acc (fun a ha => h c (by simp) a ha)]
    have hpair := hd
    simp only [namesDistinct, Bool.and_eq_true, List.all_eq_true] at hpair
    have hd' : namesDistinct cs = true := hpair.2
    have hall : ∀ c2 ∈ cs, c2.name ≠ c.name := by
      intro c2 hc2
      have := hpair.1 c2 hc2
      simpa using this
    rw [ih (acc ++ [c]) hd']
    · simp
    · intro c2 hc2 a ha
      rcases List.mem_append.mp ha with h' | h'
      · exact h c2 (by simp [hc2]) a h'
      · have : a = c := by simpa using h'
        subst this
        exact fun heq => hall c2 hc2 heq.symm

/-- Claim C10.  `mergeSchemaTrees` preserves the base node's `name`, `path`
and `type` unchanged — only `children` can differ — and in particular a
scalar-typed base merged with an object- or array-typed extra stays typed
scalar while acquiring the extra's children (stated for a childless base and
distinctly-named extra children, which is how the `forEach` loop copies them
verbatim). -/
theorem c10_merge_frame :
    (∀ a b : SchemaNode, (mergeSchemaTrees a b).name = a.name ∧
      (mergeSchemaTrees a b).path = a.path ∧ (mergeSchemaTrees a b).ty = a.ty) ∧
    (∀ (a b : SchemaNode) (cs : List SchemaNode),
      a.ty = NType.scalar → (b.ty = NType.object ∨ b.ty = NType.array) →
      a.children = none → b.children = some cs → cs ≠ [] → namesDistinct cs = true →
      (mergeSchemaTrees a b).ty = NType.scalar ∧ (mergeSchemaTrees a b).children = some cs) := by
  constructor
  · exact mergeSchemaTrees_frame
  · intro a b cs hat hbt hac hbc hne hd
    cases b with
    | mk n p t ch =>
      have ht : t ≠ NType.scalar := by
        rcases hbt with h | h <;> simp [SchemaNode.ty] at h <;> simp [h]
      rw [mergeSchemaTrees_struct_extra a n p t ch ht]
      have hch : ch = some cs := by simpa [SchemaNode.children] using hbc
      have hcd : childrenD a = [] := by simp [childrenD, hac]
      rw [hch, hcd]
      have hmc : mergeChildren [] cs = cs := by
        have := mergeChildren_no_match cs [] hd (by intro c _ a' ha'; simp at ha')
        simpa using this
      simp only [Option.getD_some, hmc]
      rw [if_pos (by cases cs with | nil => exact absurd rfl hne | cons x xs => simp)]
      exact ⟨by simpa [SchemaNode.ty] using hat, rfl⟩

/-- Witness for C10: a concrete scalar base node and object extra node; the
merge keeps the base's scalar type and takes over the extra's child list. -/
theorem c10_merge_frame_witness :
    (mergeSchemaTrees (SchemaNode.mk "f" "f" NType.scalar none)
        (SchemaNode.mk "f" "f" NType.object (some [SchemaNode.mk "g" "f.g" NType.scalar none]))).ty
      = NType.scalar ∧
    (mergeSchemaTrees (SchemaNode.mk "f" "f" NType.scalar none)
        (SchemaNode.mk "f" "f" NType.object (some [SchemaNode.mk "g" "f.g" NType.scalar none]))).children
      = some [SchemaNode.mk "g" "f.g" NType.scalar none] :=
  c10_merge_frame.2
    (SchemaNode.mk "f" "f" NType.scalar none)
    (SchemaNode.mk "f" "f" NType.object (some [SchemaNode.mk "g" "f.g" NType.scalar none]))
    [SchemaNode.mk "g" "f.g" NType.scalar none]
    rfl (Or.inl rfl) rfl rfl (by simp) (by decide)

lemma sampleIndex_strictMono (n : Nat) (h : n > maxSchemaSamples) :
    ∀ i j : Nat, i < j → i * n / maxSchemaSamples < j * n / maxSchemaSamples := by
  intro i j hij
  have hstep : i * n + maxSchemaSamples ≤ j * n := by
    have h1 : (i + 1) * n ≤ j * n := Nat.mul_le_mul_right n hij
    have h2 : i * n + n = (i + 1) * n := by ring
    omega
  have hpos : 0 < maxSchemaSamples := by decide
  calc i * n / maxSchemaSamples
      < i * n / maxSchemaSamples + 1 := Nat.lt_succ_self _
    _ = (i * n + maxSchemaSamples) / maxSchemaSamples := (Nat.add_div_right _ hpos).symm
    _ ≤ j * n / maxSchemaSamples := Nat.div_le_div_right hstep

/-- Claim C9.  When the matching set is larger than the fixed maximum sample
count (1000), the sampled indices are the stride values `i * n / 1000` for
`i < 1000`: exactly 1000 of them, strictly increasing, all valid, starting
at document 0, with the last sample within one stride of the end of the
whole matching set — and once `n ≥ 2000` the last sample index is at least
1000, i.e. beyond the first-N prefix.  (JS float stride arithmetic
`Math.floor(i * (n / 1000))` is modelled by exact integer division.) -/
theorem c9_distributed_sampling (n : Nat) (h : n > maxSchemaSamples) :
    (sampleIndices n).length = maxSchemaSamples ∧
    List.Pairwise (· < ·) (sampleIndices n) ∧
    (∀ k ∈ sampleIndices n, k < n) ∧
    0 ∈ sampleIndices n ∧
    ((maxSchemaSamples - 1) * n / maxSchemaSamples ∈ sampleIndices n ∧
      n ≤ (maxSchemaSamples - 1) * n / maxSchemaSamples + n / maxSchemaSamples + 1) ∧
    (2 * maxSchemaSamples ≤ n → maxSchemaSamples ≤ (maxSchemaSamples - 1) * n / maxSchemaSamples) := by
  have hmax : maxSchemaSamples = 1000 := rfl
  refine ⟨?_, ?_, ?_, ?_, ⟨?_, ?_⟩, ?_⟩
  · simp [sampleIndices]
  · unfold sampleIndices
    rw [List.pairwise_map]
    exact (List.pairwise_lt_range _).imp fun hij => sampleIndex_strictMono n h _ _ hij
  · intro k hk
    unfold sampleIndices at hk
    rcases List.mem_map.mp hk with ⟨i, hi, rfl⟩
    have hi' : i < maxSchemaSamples := List.mem_range.mp hi
    have ha : (i + 1) * n ≤ maxSchemaSamples * n := Nat.mul_le_mul_right n hi'
    have hb : (i + 1) * n = i * n + n := by ring
    have hn0 : 0 < n := by rw [hmax] at h; omega
    have h1 : i * n < n * maxSchemaSamples := by
      have := Nat.mul_comm maxSchemaSamples n
      omega
    exact (Nat.div_lt_iff_lt_mul (by rw [hmax]; omega)).mpr h1
  · unfold sampleIndices
    exact List.mem_map.mpr ⟨0, List.mem_range.mpr (by rw [hmax]; omega), by simp⟩
  · unfold sampleIndices
    exact List.mem_map.mpr ⟨maxSchemaSamples - 1, List.mem_range.mpr (by rw [hmax]; omega), rfl⟩
  · rw [hmax] at h ⊢
    omega
  · intro h2
    rw [hmax] at h2 ⊢
    omega

/-- Witness for C9 at `n = 2500` matching documents. -/
theorem c9_distributed_sampling_witness :
    (sampleIndices 2500).length = maxSchemaSamples ∧
    (∀ k ∈ sampleIndices 2500, k < 2500) ∧
    (2 * maxSchemaSamples ≤ 2500 → maxSchemaSamples ≤ (maxSchemaSamples - 1) * 2500 / maxSchemaSamples) :=
  have hc := c9_distributed_sampling 2500 (by decide)
  ⟨hc.1, hc.2.2.1, hc.2.2.2.2.2⟩

lemma resolveLoop_array_core (c : Json) (seg : String) (rest : List String) (xs : List Json)
    (hseg : jsEndsWith seg "[]" = true)
    (hkey : ¬(jsDropRight seg 2 = ""))
    (hnn : c ≠ Json.null)
    (hlook : c.getProp (jsDropRight seg 2) = some (Json.arr xs)) :
    resolveLoop (some c) (seg :: rest) =
      (if String.intercalate "." rest = "" then JsResult.val (Json.arr xs)
       else
         (if (xs.map fun item =>
               if item.truthy then resolveLoop (some item) rest else JsResult.undefinedVal).any
              (fun r => match r with | JsResult.thrown => true | _ => false)
          then JsResult.thrown
          else JsResult.val (Json.arr ((xs.map fun item =>
               if item.truthy then resolveLoop (some item) rest else JsResult.undefinedVal).filterMap
                 fun r => match r with | JsResult.val w => some w | _ => none)))) := by
  cases c with
  | null => exact absurd rfl hnn
  | bool b => simp [Json.getProp] at hlook
  | num m => simp [Json.getProp] at hlook
  | str s => simp [Json.getProp] at hlook
  | arr ys =>
    conv_lhs => unfold resolveLoop
    simp only [hseg, if_true, hkey, if_false, hlook]
  | obj fs =>
    conv_lhs => unfold resolveLoop
    simp only [hseg, if_true, hkey, if_false, hlook]

/-- Claim C4.  During resolution, an array segment that is the last segment
returns the resolved array itself unwrapped; a non-last array segment
resolves the remaining suffix path against every element of the array in
source order and concatenates the defined results into one flat sequence,
dropping elements whose resolution yields undefined (no holes).  (When some
element's resolution throws — see C1 — the whole resolution throws; the
concatenation clause is therefore stated for elements that do not throw.)
`restPath` is the joined remaining suffix, re-split on dots by the
recursive call, which is the identity on it. -/
theorem c4_array_segment (c : Json) (seg restPath : String) (rest : List String) (xs : List Json)
    (hseg : jsEndsWith seg "[]" = true)
    (hkey : ¬(jsDropRight seg 2 = ""))
    (hnn : c ≠ Json.null)
    (hlook : c.getProp (jsDropRight seg 2) = some (Json.arr xs))
    (hsplit : jsSplitOnChar '.' restPath = rest)
    (hjoin : String.intercalate "." rest = restPath) :
    (resolveLoop (some c) [seg] = JsResult.val (Json.arr xs)) ∧
    (restPath ≠ "" →
      ((∀ item ∈ xs, getValueByPath item restPath ≠ JsResult.thrown) →
        resolveLoop (some c) (seg :: rest) =
          JsResult.val (Json.arr (xs.filterMap fun item =>
            match getValueByPath item restPath with
            | JsResult.val w => some w
            | _ => none))) ∧
      ((∃ item ∈ xs, getValueByPath item restPath = JsResult.thrown) →
        resolveLoop (some c) (seg :: rest) = JsResult.thrown)) := by
  have helem : ∀ item : Json,
      (if item.truthy then resolveLoop (some item) rest else JsResult.undefinedVal) =
        getValueByPath item restPath := by
    intro item
    unfold getValueByPath
    rw [hsplit]
  have hmap : (xs.map fun item =>
      if item.truthy then resolveLoop (some item) rest else JsResult.undefinedVal) =
      xs.map fun item => getValueByPath item restPath := by
    exact List.map_congr_left fun item _ => helem item
  constructor
  · rw [resolveLoop_array_core c seg [] xs hseg hkey hnn hlook]
    rfl
  · intro hne
    have hne' : ¬(String.intercalate "." rest = "") := by rw [hjoin]; exact hne
    constructor
    · intro hnothrow
      rw [resolveLoop_array_core c seg rest xs hseg hkey hnn hlook, if_neg hne', hmap]
      have hany : (xs.map fun item => getValueByPath item restPath).any
          (fun r => match r with | JsResult.thrown => true | _ => false) = false := by
        rw [List.any_eq_false]
        intro r hr
        rcases List.mem_map.mp hr with ⟨item, hitem, rfl⟩
        have := hnothrow item hitem
        cases hres : getValueByPath item restPath with
        | thrown => exact absurd hres this
        | undefinedVal => simp
        | val w => simp
      rw [hany, if_neg (by simp)]
      rw [List.filterMap_map]
      rfl
    · intro hthrow
      rw [resolveLoop_array_core c seg rest xs hseg hkey hnn hlook, if_neg hne', hmap]
      have hany : (xs.map fun item => getValueByPath item restPath).any
          (fun r => match r with | JsResult.thrown => true | _ => false) = true := by
        rw [List.any_eq_true]
        rcases hthrow with ⟨item, hitem, hres⟩
        exact ⟨JsResult.thrown, List.mem_map.mpr ⟨item, hitem, hres⟩, rfl⟩
      rw [hany, if_pos (by simp)]

/-- Witness for C4: document element list `[("b": 1), ("c": 2)]` under key
`"a"`; the suffix path `"b"` resolves on the first element only, so the
non-last-segment resolution concatenates to `[1]`, dropping the undefined
second element, and the last-segment form returns the array itself. -/
theorem c4_array_segment_witness :
    (resolveLoop (some (Json.obj [("a", Json.arr [Json.obj [("b", Json.num 1)], Json.obj [("c", Json.num 2)]])]))
        ["a[]"] = JsResult.val (Json.arr [Json.obj [("b", Json.num 1)], Json.obj [("c", Json.num 2)]])) ∧
    (resolveLoop (some (Json.obj [("a", Json.arr [Json.obj [("b", Json.num 1)], Json.obj [("c", Json.num 2)]])]))
        ["a[]", "b"] = JsResult.val (Json.arr [Json.num 1])) := by
  have hc := c4_array_segment
    (Json.obj [("a", Json.arr [Json.obj [("b", Json.num 1)], Json.obj [("c", Json.num 2)]])])
    "a[]" "b" ["b"] [Json.obj [("b", Json.num 1)], Json.obj [("c", Json.num 2)]]
    (by decide) (by decide) (by decide) (by decide) (by decide) (by decide)
  refine ⟨hc.1, ?_⟩
  have h2 := (hc.2 (by decide)).1 (by decide)
  rw [h2]
  decide

lemma flatInfList_no_arr :
    ∀ (k : Nat) (xs : List Json), sizeOf xs ≤ k → ∀ v ∈ flatInfList xs, v.isArr = false := by
  intro k
  induction k with
  | zero =>
    intro xs hxs
    cases xs with
    | nil => intro v hv; simp [flatInfList] at hv
    | cons x xs' => exfalso; simp at hxs
  | succ k ih =>
    intro xs hxs v hv
    cases xs with
    | nil => simp [flatInfList] at hv
    | cons x xs' =>
      unfold flatInfList at hv
      rcases List.mem_append.mp hv with h1 | h2
      · cases x with
        | arr ys =>
          have hsz : sizeOf ys ≤ k := by simp at hxs; omega
          exact ih ys hsz v (by simpa [flatInfOne] using h1)
        | null => simp [flatInfOne] at h1; simp [h1, Json.isArr]
        | bool b => simp [flatInfOne] at h1; simp [h1, Json.isArr]
        | num m => simp [flatInfOne] at h1; simp [h1, Json.isArr]
        | str s => simp [flatInfOne] at h1; simp [h1, Json.isArr]
        | obj fs => simp [flatInfOne] at h1; simp [h1, Json.isArr]
      · have hsz : sizeOf xs' ≤ k := by simp at hxs; omega
        exact ih xs' hsz v h2

lemma flattenCell_no_arr (p rule sep : String) (value : Option Json) :
    (flattenCell p rule sep value).isArr = false := by
  unfold flattenCell
  by_cases hp : jsIncludes p "[]" = true
  · simp only [hp, if_true]
    match value with
    | some (Json.arr xs) =>
      have hflat : ∀ v ∈ (flatInfList xs).filter (fun v => v ≠ Json.null), v.isArr = false := by
        intro v hv
        exact flatInfList_no_arr (sizeOf xs) xs le_rfl v (List.mem_of_mem_filter hv)
      by_cases h1 : rule = "count"
      · simp [h1, Json.isArr]
      · by_cases h2 : rule = "first"
        · simp only [h1, h2, if_false, if_true]
          cases hh : ((flatInfList xs).filter (fun v => v ≠ Json.null)).head? with
          | none => simp [Json.isArr]
          | some w =>
            simp only [hh, Option.getD_some]
            exact hflat w (List.mem_of_mem_head? (by rw [hh]; simp))
        · by_cases h3 : rule = "last"
          · simp only [h1, h2, h3, if_false, if_true]
            cases hh : ((flatInfList xs).filter (fun v => v ≠ Json.null)).getLast? with
            | none => simp [Json.isArr]
            | some w =>
              simp only [hh, Option.getD_some]
              exact hflat w (List.mem_of_mem_getLast? hh)
          · by_cases h4 : rule = "json"
            · simp [h1, h2, h3, h4, Json.isArr]
            · simp [h1, h2, h3, h4, Json.isArr]
    | some Json.null => simp [Json.isArr]
    | some (Json.bool b) => simp [Json.isArr]
    | some (Json.num m) => simp [Json.isArr]
    | some (Json.str s) => simp [Json.isArr]
    | some (Json.obj fs) => simp [Json.isArr]
    | none => simp [Json.isArr]
  · simp only [Bool.not_eq_true] at hp
    simp only [hp, if_false]
    match value with
    | some Json.null => simp [Json.isArr]
    | some (Json.bool b) => simp [Json.isArr]
    | some (Json.num m) => simp [Json.isArr]
    | some (Json.str s) => simp [Json.isArr]
    | some (Json.arr xs) => simp [Json.isArr]
    | some (Json.obj fs) => simp [Json.isArr]
    | none => simp [Json.isArr]

lemma setEntry_no_arr (acc : List (String × Json)) (p : String) (v : Json)
    (hacc : ∀ q w, (q, w) ∈ acc → w.isArr = false) (hv : v.isArr = false) :
    ∀ q w, (q, w) ∈ setEntry acc p v → w.isArr = false := by
  induction acc with
  | nil =>
    intro q w hw
    simp [setEntry] at hw
    rw [hw.2]
    exact hv
  | cons kv rest ih =>
    intro q w hw
    unfold setEntry at hw
    by_cases hk : kv.1 = p
    · rw [if_pos hk] at hw
      rcases List.mem_cons.mp hw with h | h
      · rw [(Prod.mk.injEq _ _ _ _).mp h |>.2 |>.symm] at hv; exact hv
      · exact hacc q w (List.mem_cons.mpr (Or.inr h))
    · rw [if_neg hk] at hw
      rcases List.mem_cons.mp hw with h | h
      · exact hacc q w (List.mem_cons.mpr (Or.inl h))
      · exact ih (fun q' w' hw' => hacc q' w' (List.mem_cons.mpr (Or.inr hw'))) q w h

lemma flattenGo_no_arr (data : Json) (rule sep : String) :
    ∀ (ps : List String) (acc : List (String × Json)) (rec : List (String × Json)),
      (∀ q w, (q, w) ∈ acc → w.isArr = false) →
      flattenGo data rule sep ps acc = some rec →
      ∀ q w, (q, w) ∈ rec → w.isArr = false := by
  intro ps
  induction ps with
  | nil =>
    intro acc rec hacc heq
    unfold flattenGo at heq
    rw [Option.some.injEq] at heq
    rw [← heq]
    exact hacc
  | cons p ps ih =>
    intro acc rec hacc heq
    unfold flattenGo at heq
    cases hres : getValueByPath data p with
    | thrown => rw [hres] at heq; exact absurd heq (by simp)
    | undefinedVal =>
      rw [hres] at heq
      exact ih _ rec
        (setEntry_no_arr acc p _ hacc (flattenCell_no_arr p rule sep none)) heq
    | val v =>
      rw [hres] at heq
      exact ih _ rec
        (setEntry_no_arr acc p _ hacc (flattenCell_no_arr p rule sep (some v))) heq

/-- Claim C6, amended.  For every document, selected-path list, rule and
separator, no value of the flattened record is a raw array (the original
claim's "never an object" clause fails — see the counterexample — because
deep-flattening does not descend into objects and the first/last rules and
the defensive non-array fallback return them verbatim). -/
theorem c6_no_raw_array (data : Json) (paths : List String) (rule sep : String)
    (rec : List (String × Json)) (h : flattenTour data paths rule sep = some rec) :
    ∀ q w, (q, w) ∈ rec → w.isArr = false := by
  unfold flattenTour at h
  exact flattenGo_no_arr data rule sep paths [] rec (by intro q w hw; simp at hw) h

/-- Witness for C6's amended theorem on the counterexample document: the
record holds an object value but no raw array. -/
theorem c6_no_raw_array_witness :
    (Json.obj [("x", Json.num 1)]).isArr = false :=
  c6_no_raw_array nestedFirstDoc ["a[].b"] "first" "; "
    [("a[].b", Json.obj [("x", Json.num 1)])] (by decide)
    "a[].b" (Json.obj [("x", Json.num 1)]) (by decide)

lemma chainSpec_nil_codes (chain : List Json) : ChainSpec chain [] := by
  intro i hi
  simp at hi

lemma chainSpec_cons_empty (chain : List Json) (codes : List String) :
    ChainSpec chain ("" :: codes) ↔ ChainSpec chain.tail codes := by
  constructor
  · intro h i hi hne
    have := h (i + 1) (by simpa using Nat.succ_lt_succ hi) (by simpa using hne)
    cases chain with
    | nil => simpa [List.getD] using this
    | cons x rest => simpa [List.getD] using this
  · intro h i hi hne
    cases i with
    | zero => simp [List.getD] at hne
    | succ j =>
      have := h j (by simpa using Nat.lt_of_succ_lt_succ hi) (by simpa using hne)
      cases chain with
      | nil => simpa [List.getD] using this
      | cons x rest => simpa [List.getD] using this

lemma chainSpec_cons_cons (node : Json) (rest : List Json) (code : String) (codes : List String)
    (ht : node.truthy = true)
    (hs : jsStringOfProp (node.getProp "code") = code) :
    ChainSpec (node :: rest) (code :: codes) ↔ ChainSpec rest codes := by
  constructor
  · intro h i hi hne
    have := h (i + 1) (by simpa using Nat.succ_lt_succ hi) (by simpa using hne)
    simpa [List.getD] using this
  · intro h i hi hne
    cases i with
    | zero => exact ⟨by simpa [List.getD] using ht, by simpa [List.getD] using hs⟩
    | succ j =>
      have := h j (by simpa using Nat.lt_of_succ_lt_succ hi) (by simpa using hne)
      simpa [List.getD] using this

lemma checkMatch_iff_chainSpec :
    ∀ (codes : List String) (chain : List Json),
      checkMatch chain codes = true ↔ ChainSpec chain codes := by
  intro codes
  induction codes with
  | nil =>
    intro chain
    constructor
    · intro _; exact chainSpec_nil_codes chain
    · intro _; rfl
  | cons code codes ih =>
    intro chain
    by_cases hc : code = ""
    · subst hc
      unfold checkMatch
      rw [if_pos rfl, ih chain.tail, chainSpec_cons_empty]
    · cases chain with
      | nil =>
        constructor
        · intro h
          simp [checkMatch, hc] at h
        · intro hcs
          have := hcs 0 (by simp) (by simpa using hc)
          simp [List.getD, Json.truthy] at this
      | cons node rest =>
        by_cases ht : node.truthy = true
        · by_cases hs : jsStringOfProp (node.getProp "code") = code
          · have hcm : checkMatch (node :: rest) (code :: codes) = checkMatch rest codes := by
              simp [checkMatch, hc, ht, hs]
            rw [hcm, ih rest]
            exact (chainSpec_cons_cons node rest code codes ht hs).symm
          · constructor
            · intro h
              simp [checkMatch, hc, ht, hs] at h
            · intro hcs
              have := hcs 0 (by simp) (by simpa using hc)
              exact absurd (by simpa [List.getD] using this.2) hs
        · constructor
          · intro h
            simp [checkMatch, hc, ht] at h
          · intro hcs
            have := hcs 0 (by simp) (by simpa using hc)
            exact absurd (by simpa [List.getD] using this.1) ht

/-- Claim C7.  Breadcrumb matching: (1) when every selected code is empty
(including the empty selection), every document passes; (2) a single
`(code, name)` chain satisfies `checkMatch` exactly when every position
with a non-empty selected code has a node there whose stringified code
equals it, positions with empty selected codes being skipped and a missing
node at a required position rejecting; (3) otherwise — whenever the call
returns at all (the generic source-path branch inherits the resolver's
throw, see C1) — the document matches exactly when some chain found at the
configured source path satisfies that positional condition. -/
theorem c7_breadcrumb_matching :
    (∀ (content : Json) (sp : String) (codes : List String),
      codes.all (fun c => c = "") = true → matchBreadcrumb content sp codes = some true) ∧
    (∀ (chain : List Json) (codes : List String),
      checkMatch chain codes = true ↔ ChainSpec chain codes) ∧
    (∀ (content : Json) (sp : String) (codes : List String),
      codes.all (fun c => c = "") = false →
      matchBreadcrumb content sp codes ≠ none →
      (matchBreadcrumb content sp codes = some true ↔
        ∃ chain ∈ breadcrumbChains content sp, ChainSpec chain codes)) := by
  refine ⟨?_, fun chain codes => checkMatch_iff_chainSpec codes chain, ?_⟩
  · intro content sp codes h
    unfold matchBreadcrumb
    rw [if_pos h]
  · intro content sp codes hne hnt
    unfold matchBreadcrumb at hnt ⊢
    unfold breadcrumbChains
    rw [if_neg (by simp [hne])] at hnt ⊢
    by_cases hinc : jsIncludes sp "getCommBreadcrumb" = true
    · rw [if_pos hinc] at hnt ⊢
      rw [if_pos hinc]
      cases hbq : breadcrumbQueries content with
      | none =>
        simp only [hbq]
        constructor
        · intro h; simp at h
        · intro ⟨chain, hchain, _⟩; simp at hchain
      | some v =>
        cases v with
        | arr bs =>
          simp only [hbq, Option.some.injEq]
          rw [List.any_eq_true]
          constructor
          · intro ⟨b, hb, hmatch⟩
            cases hw : wrapperChain b with
            | none => rw [hw] at hmatch; simp at hmatch
            | some data =>
              rw [hw] at hmatch
              exact ⟨data, List.mem_filterMap.mpr ⟨b, hb, hw⟩,
                (checkMatch_iff_chainSpec codes data).mp hmatch⟩
          · intro ⟨chain, hchain, hcs⟩
            rcases List.mem_filterMap.mp hchain with ⟨b, hb, hw⟩
            exact ⟨b, hb, by rw [hw]; exact (checkMatch_iff_chainSpec codes chain).mpr hcs⟩
        | null =>
          simp only [hbq]
          constructor
          · intro h; simp at h
          · intro ⟨chain, hchain, _⟩; simp at hchain
        | bool b =>
          simp only [hbq]
          constructor
          · intro h; simp at h
          · intro ⟨chain, hchain, _⟩; simp at hchain
        | num m =>
          simp only [hbq]
          constructor
          · intro h; simp at h
          · intro ⟨chain, hchain, _⟩; simp at hchain
        | str st =>
          simp only [hbq]
          constructor
          · intro h; simp at h
          · intro ⟨chain, hchain, _⟩; simp at hchain
        | obj fs =>
          simp only [hbq]
          constructor
          · intro h; simp at h
          · intro ⟨chain, hchain, _⟩; simp at hchain
    · rw [if_neg hinc] at hnt ⊢
      rw [if_neg hinc]
      cases hres : getValueByPath content sp with
      | thrown =>
        rw [hres] at hnt
        exact absurd rfl hnt
      | undefinedVal =>
        simp only [hres]
        constructor
        · intro h; simp at h
        · intro ⟨chain, hchain, _⟩; simp at hchain
      | val v =>
        cases v with
        | arr td =>
          simp only [hres, Option.some.injEq]
          constructor
          · intro h
            exact ⟨td, by simp, (checkMatch_iff_chainSpec codes td).mp h⟩
          · intro ⟨chain, hchain, hcs⟩
            have : chain = td := by simpa using hchain
            subst this
            exact (checkMatch_iff_chainSpec codes chain).mpr hcs
        | null =>
          simp only [hres]
          constructor
          · intro h; simp at h
          · intro ⟨chain, hchain, _⟩; simp at hchain
        | bool b =>
          simp only [hres]
          constructor
          · intro h; simp at h
          · intro ⟨chain, hchain, _⟩; simp at hchain
        | num m =>
          simp only [hres]
          constructor
          · intro h; simp at h
          · intro ⟨chain, hchain, _⟩; simp at hchain
        | str st =>
          simp only [hres]
          constructor
          · intro h; simp at h
          · intro ⟨chain, hchain, _⟩; simp at hchain
        | obj fs =>
          simp only [hres]
          constructor
          · intro h; simp at h
          · intro ⟨chain, hchain, _⟩; simp at hchain

/-- Witness for C7: the default wrapper source path, selected codes
`["L1", "", "L3"]` (position 1 is don't-care), and a document whose single
chain is L1/L2/L3: the document matches and a chain satisfying the
positional condition exists. -/
theorem c7_breadcrumb_matching_witness :
    ∃ chain ∈ breadcrumbChains bcDoc "queries.getCommBreadcrumb",
      ChainSpec chain ["L1", "", "L3"] :=
  (c7_breadcrumb_matching.2.2 bcDoc "queries.getCommBreadcrumb" ["L1", "", "L3"]
    (by decide) (by decide)).mp (by decide)

lemma leaf_scalar (a : SchemaNode) (h : a.ty = NType.scalar) :
    getAllLeafPaths a = [a.path] := by
  cases a with
  | mk n p t ch =>
    simp [SchemaNode.ty] at h
    subst h
    unfold getAllLeafPaths
    rfl

lemma leaf_struct (a : SchemaNode) (h : a.ty ≠ NType.scalar) :
    getAllLeafPaths a = leafPathsList (childrenD a) := by
  cases a with
  | mk n p t ch =>
    simp only [SchemaNode.ty] at h
    unfold getAllLeafPaths
    cases t with
    | scalar => exact absurd rfl h
    | array => cases ch <;> simp [childrenD, SchemaNode.children, leafPathsList]
    | object => cases ch <;> simp [childrenD, SchemaNode.children, leafPathsList]

lemma leaf_mk_iflen (n p : String) (t : NType) (ht : t ≠ NType.scalar) (l : List SchemaNode) :
    getAllLeafPaths (.mk n p t (if l.length > 0 then some l else none)) = leafPathsList l := by
  cases l with
  | nil =>
    rw [if_neg (by simp)]
    rw [leaf_struct _ (by simpa [SchemaNode.ty] using ht)]
    simp [childrenD, SchemaNode.children, leafPathsList]
  | cons c cs =>
    rw [if_pos (by simp)]
    rw [leaf_struct _ (by simpa [SchemaNode.ty] using ht)]
    simp [childrenD, SchemaNode.children]

lemma leafPathsList_cons (c : SchemaNode) (cs : List SchemaNode) :
    leafPathsList (c :: cs) = getAllLeafPaths c ++ leafPathsList cs := by
  conv_lhs => unfold leafPathsList

lemma mergeChildren_nil_extra (acc : List SchemaNode) : mergeChildren acc [] = acc := by
  unfold mergeChildren
  rfl

lemma namesDistinct_cons (b : SchemaNode) (bs : List SchemaNode)
    (h : namesDistinct (b :: bs) = true) :
    (∀ b2 ∈ bs, b2.name ≠ b.name) ∧ namesDistinct bs = true := by
  simp only [namesDistinct, Bool.and_eq_true, List.all_eq_true] at h
  refine ⟨fun b2 hb2 => ?_, h.2⟩
  have := h.1 b2 hb2
  simpa using this

lemma mergeOkOne_pairs :
    ∀ (bs : List SchemaNode) (a : SchemaNode), mergeOkOne a bs = true →
      ∀ b ∈ bs, a.name = b.name → mergeOk a b = true := by
  intro bs
  induction bs with
  | nil => intro a _ b hb; simp at hb
  | cons b1 bs' ih =>
    intro a h b hb hname
    unfold mergeOkOne at h
    rw [Bool.and_eq_true] at h
    rcases List.mem_cons.mp hb with rfl | hb'
    · have := h.1
      rw [if_pos hname] at this
      exact this
    · exact ih a h.2 b hb' hname

lemma mergeOkLists_pairs :
    ∀ (as bs : List SchemaNode), mergeOkLists as bs = true →
      ∀ a ∈ as, ∀ b ∈ bs, a.name = b.name → mergeOk a b = true := by
  intro as
  induction as with
  | nil => intro bs _ a ha; simp at ha
  | cons a1 as' ih =>
    intro bs h a ha b hb hname
    unfold mergeOkLists at h
    rw [Bool.and_eq_true] at h
    rcases List.mem_cons.mp ha with rfl | ha'
    · exact mergeOkOne_pairs bs a h.1 b hb hname
    · exact ih bs h.2 a ha' b hb hname

lemma insertMergeNode_mem_names (e : SchemaNode) :
    ∀ (as : List SchemaNode) (c' : SchemaNode), c' ∈ insertMergeNode as e →
      c' ∈ as ∨ c'.name = e.name := by
  intro as
  induction as with
  | nil =>
    intro c' hc'
    unfold insertMergeNode at hc'
    right
    have : c' = e := by simpa using hc'
    rw [this]
  | cons c cs ih =>
    intro c' hc'
    unfold insertMergeNode at hc'
    by_cases hn : c.name = e.name
    · rw [if_pos hn] at hc'
      rcases List.mem_cons.mp hc' with rfl | h
      · right
        rw [(mergeSchemaTrees_frame c e).1, hn]
      · left; exact List.mem_cons.mpr (Or.inr h)
    · rw [if_neg hn] at hc'
      rcases List.mem_cons.mp hc' with rfl | h
      · left; exact List.mem_cons.mpr (Or.inl rfl)
      · rcases ih c' h with h' | h'
        · left; exact List.mem_cons.mpr (Or.inr h')
        · right; exact h'

lemma insertMergeNode_union (e : SchemaNode)
    (IH1 : ∀ c, mergeOk c e = true → ∀ p,
      p ∈ getAllLeafPaths (mergeSchemaTrees c e) ↔
        p ∈ getAllLeafPaths c ∨ p ∈ getAllLeafPaths e) :
    ∀ (as : List SchemaNode), (∀ c ∈ as, c.name = e.name → mergeOk c e = true) → ∀ p,
      (p ∈ leafPathsList (insertMergeNode as e) ↔
        p ∈ leafPathsList as ∨ p ∈ getAllLeafPaths e) := by
  intro as
  induction as with
  | nil =>
    intro _ p
    unfold insertMergeNode
    rw [leafPathsList_cons]
    simp [leafPathsList]
  | cons c cs ih =>
    intro hok p
    unfold insertMergeNode
    by_cases hn : c.name = e.name
    · rw [if_pos hn, leafPathsList_cons, leafPathsList_cons]
      rw [List.mem_append, List.mem_append]
      rw [IH1 c (hok c (List.mem_cons.mpr (Or.inl rfl)) hn) p]
      tauto
    · rw [if_neg hn, leafPathsList_cons, leafPathsList_cons]
      rw [List.mem_append, List.mem_append]
      rw [ih (fun c' hc' => hok c' (List.mem_cons.mpr (Or.inr hc'))) p]
      tauto

lemma mergeChildren_union :
    ∀ (bs : List SchemaNode),
      (∀ e ∈ bs, ∀ c, mergeOk c e = true → ∀ p,
        p ∈ getAllLeafPaths (mergeSchemaTrees c e) ↔
          p ∈ getAllLeafPaths c ∨ p ∈ getAllLeafPaths e) →
      namesDistinct bs = true →
      ∀ (as : List SchemaNode),
        (∀ a ∈ as, ∀ b ∈ bs, a.name = b.name → mergeOk a b = true) →
        ∀ p, (p ∈ leafPathsList (mergeChildren as bs) ↔
          p ∈ leafPathsList as ∨ p ∈ leafPathsList bs) := by
  intro bs
  induction bs with
  | nil =>
    intro _ _ as _ p
    rw [mergeChildren_nil_extra]
    simp [leafPathsList]
  | cons b1 bs' ihb =>
    intro IH hnd as hok p
    obtain ⟨hb1nin, hnd'⟩ := namesDistinct_cons b1 bs' hnd
    have hstep : mergeChildren as (b1 :: bs') = mergeChildren (insertMergeNode as b1) bs' := by
      conv_lhs => unfold mergeChildren
    rw [hstep]
    have hok' : ∀ a ∈ insertMergeNode as b1, ∀ b ∈ bs', a.name = b.name → mergeOk a b = true := by
      intro a ha b hb hname
      rcases insertMergeNode_mem_names b1 as a ha with h' | h'
      · exact hok a h' b (List.mem_cons.mpr (Or.inr hb)) hname
      · exact absurd (hname.symm.trans h') (hb1nin b hb)
    rw [ihb (fun e he => IH e (List.mem_cons.mpr (Or.inr he))) hnd' (insertMergeNode as b1) hok' p]
    rw [insertMergeNode_union b1 (IH b1 (List.mem_cons.mpr (Or.inl rfl))) as
      (fun c hc hn => hok c hc b1 (List.mem_cons.mpr (Or.inl rfl)) hn) p]
    rw [leafPathsList_cons, List.mem_append]
    tauto

lemma merge_leafset_struct (k : Nat)
    (ih : ∀ (b' : SchemaNode), sizeOf b' ≤ k → ∀ (a' : SchemaNode), mergeOk a' b' = true → ∀ q,
      (q ∈ getAllLeafPaths (mergeSchemaTrees a' b') ↔
        q ∈ getAllLeafPaths a' ∨ q ∈ getAllLeafPaths b'))
    (a : SchemaNode) (bn bp : String) (bty : NType) (bch : Option (List SchemaNode))
    (hb : sizeOf (SchemaNode.mk bn bp bty bch) ≤ k + 1)
    (hnd : namesDistinct (bch.getD []) = true)
    (hlists : mergeOkLists (childrenD a) (bch.getD []) = true)
    (hat : a.ty ≠ NType.scalar)
    (hbt : bty ≠ NType.scalar)
    (p : String) :
    p ∈ getAllLeafPaths (mergeSchemaTrees a (.mk bn bp bty bch)) ↔
      p ∈ getAllLeafPaths a ∨ p ∈ getAllLeafPaths (.mk bn bp bty bch) := by
  rw [mergeSchemaTrees_struct_extra a bn bp bty bch hbt]
  rw [leaf_mk_iflen a.name a.path a.ty hat (mergeChildren (childrenD a) (bch.getD []))]
  rw [leaf_struct a hat]
  rw [leaf_struct (.mk bn bp bty bch) (by simpa [SchemaNode.ty] using hbt)]
  have hch : childrenD (.mk bn bp bty bch) = bch.getD [] := by
    simp [childrenD, SchemaNode.children]
  rw [hch]
  have IH2 : ∀ e ∈ bch.getD [], ∀ c, mergeOk c e = true → ∀ q,
      q ∈ getAllLeafPaths (mergeSchemaTrees c e) ↔
        q ∈ getAllLeafPaths c ∨ q ∈ getAllLeafPaths e := by
    intro e he c hc q
    cases bch with
    | none => simp at he
    | some l =>
      have h1 : sizeOf e < sizeOf l := List.sizeOf_lt_of_mem (by simpa using he)
      have h2 : sizeOf e ≤ k := by
        simp at hb
        omega
      exact ih e h2 c hc q
  exact mergeChildren_union (bch.getD []) IH2 hnd (childrenD a)
    (mergeOkLists_pairs (childrenD a) (bch.getD []) hlists) p

lemma merge_leafset_aux :
    ∀ (k : Nat) (b : SchemaNode), sizeOf b ≤ k → ∀ (a : SchemaNode),
      mergeOk a b = true → ∀ p,
      (p ∈ getAllLeafPaths (mergeSchemaTrees a b) ↔
        p ∈ getAllLeafPaths a ∨ p ∈ getAllLeafPaths b) := by
  intro k
  induction k with
  | zero =>
    intro b hb
    exfalso
    cases b with
    | mk n p t ch => simp at hb
  | succ k ih =>
    intro b hb a hok p
    cases b with
    | mk bn bp bty bch =>
      have hunpack : bty ≠ NType.scalar →
          namesDistinct (bch.getD []) = true ∧ mergeOkLists (childrenD a) (bch.getD []) = true := by
        intro hbt
        unfold mergeOk at hok
        cases hat : a.ty with
        | scalar =>
          rw [hat] at hok
          cases bty with
          | scalar => exact absurd rfl hbt
          | array => simp at hok
          | object => simp at hok
        | array =>
          rw [hat] at hok
          cases bty with
          | scalar => exact absurd rfl hbt
          | array =>
            cases bch with
            | none => exact ⟨rfl, by simpa using hok⟩
            | some l => simpa [Bool.and_eq_true] using hok
          | object =>
            cases bch with
            | none => exact ⟨rfl, by simpa using hok⟩
            | some l => simpa [Bool.and_eq_true] using hok
        | object =>
          rw [hat] at hok
          cases bty with
          | scalar => exact absurd rfl hbt
          | array =>
            cases bch with
            | none => exact ⟨rfl, by simpa using hok⟩
            | some l => simpa [Bool.and_eq_true] using hok
          | object =>
            cases bch with
            | none => exact ⟨rfl, by simpa using hok⟩
            | some l => simpa [Bool.and_eq_true] using hok
      have hanotscalar : bty ≠ NType.scalar → a.ty ≠ NType.scalar := by
        intro hbt hat
        unfold mergeOk at hok
        rw [hat] at hok
        cases bty with
        | scalar => exact absurd rfl hbt
        | array => simp at hok
        | object => simp at hok
      cases bty with
      | scalar =>
        have hpath : a.path = bp ∧ a.ty = NType.scalar := by
          unfold mergeOk at hok
          cases hat : a.ty with
          | scalar =>
            rw [hat] at hok
            exact ⟨by simpa [SchemaNode.path] using hok, rfl⟩
          | array => rw [hat] at hok; simp at hok
          | object => rw [hat] at hok; simp at hok
        rw [mergeSchemaTrees_scalar_extra]
        rw [leaf_scalar a hpath.2, leaf_scalar (.mk bn bp NType.scalar bch) rfl]
        have hq : (SchemaNode.mk bn bp NType.scalar bch).path = bp := rfl
        rw [hq, hpath.1]
        simp
      | array =>
        have h2 := hunpack (by decide)
        exact merge_leafset_struct k ih a bn bp NType.array bch hb h2.1 h2.2
          (hanotscalar (by decide)) (by decide) p
      | object =>
        have h2 := hunpack (by decide)
        exact merge_leafset_struct k ih a bn bp NType.object bch hb h2.1 h2.2
          (hanotscalar (by decide)) (by decide) p

/-- Claim C3, amended.  For documents A, B, C whose inferred schema trees
are merge-compatible in the order used (`mergeOk`: name-aligned positions
agree on scalar-versus-structured, scalar positions carry identical paths,
and the extra side's children are distinctly named), the collected leaf-path
set of `mergeSchemaTrees (mergeSchemaTrees (infer A) (infer B)) (infer C)`
is exactly the union of the three individually observable leaf-path sets —
in particular no observed field is dropped, and since the right-hand side
is symmetric in A, B, C, the field set is independent of the merge order
(any order satisfying its own compatibility hypotheses yields the same
set).  Without compatibility the claim fails (see the counterexample). -/
theorem c3_merged_leaf_sets (A B C : Json)
    (h1 : mergeOk (buildSchemaTree A "" "root") (buildSchemaTree B "" "root") = true)
    (h2 : mergeOk (mergeSchemaTrees (buildSchemaTree A "" "root") (buildSchemaTree B "" "root"))
      (buildSchemaTree C "" "root") = true) :
    ∀ p, p ∈ getAllLeafPaths (mergeSchemaTrees
        (mergeSchemaTrees (buildSchemaTree A "" "root") (buildSchemaTree B "" "root"))
        (buildSchemaTree C "" "root")) ↔
      (p ∈ getAllLeafPaths (buildSchemaTree A "" "root") ∨
       p ∈ getAllLeafPaths (buildSchemaTree B "" "root") ∨
       p ∈ getAllLeafPaths (buildSchemaTree C "" "root")) := by
  intro p
  rw [merge_leafset_aux (sizeOf (buildSchemaTree C "" "root")) _ le_rfl _ h2 p]
  rw [merge_leafset_aux (sizeOf (buildSchemaTree B "" "root")) _ le_rfl _ h1 p]
  tauto

/-- Witness for C3's amended theorem: A = `("a": 1)`, B = `("b": 2)`,
C = `("a": 3, "c": 4)` are pairwise compatible; the field `"b"` observed
only in B is present in the fully merged tree. -/
theorem c3_merged_leaf_sets_witness :
    "b" ∈ getAllLeafPaths (mergeSchemaTrees
      (mergeSchemaTrees (buildSchemaTree c3wA "" "root") (buildSchemaTree c3wB "" "root"))
      (buildSchemaTree c3wC "" "root")) :=
  (c3_merged_leaf_sets c3wA c3wB c3wC
    (by simp [c3wA, c3wB, buildSchemaTree, buildChildrenList, mergeOk, mergeOkLists, mergeOkOne,
      namesDistinct, childrenD, SchemaNode.children, SchemaNode.name, SchemaNode.path,
      SchemaNode.ty])
    (by simp [c3wA, c3wB, c3wC, buildSchemaTree, buildChildrenList, mergeOk, mergeOkLists,
      mergeOkOne, namesDistinct, childrenD, mergeSchemaTrees, mergeChildren, insertMergeNode,
      SchemaNode.children, SchemaNode.name, SchemaNode.path, SchemaNode.ty])
    "b").mpr
    (Or.inr (Or.inl (by
      simp [c3wB, buildSchemaTree, buildChildrenList, getAllLeafPaths, leafPathsList,
        SchemaNode.children, SchemaNode.name, SchemaNode.path, SchemaNode.ty])))
